import Mathlib

/-!
Shallow embedding of the token-list reconciliation engine of `dex-react`
(`getTokensFactory` and its helper functions in the tokenList factory module).

External collaborators (exchange contract accessor, curated registry, ERC20
metadata resolver) are modelled as deterministic oracles packaged in `Env`:
each call either succeeds with a value (`CallResult.ok`) or fails
(`CallResult.err`, a rejected promise / thrown error).  The token cache store
(`tokenListApi`) is modelled by passing the cached list explicitly and
returning the list handed to `persistTokens`.  JavaScript `Map` and `Set`
(insertion-ordered, last-write-wins) are modelled by association lists built
with `jsMapSet` / `jsSetAdd`.
-/

/-- Metadata returned by the ERC20 resolver (`TokenErc20` of `dex-js`). -/
structure TokenErc20 where
  address : String
  symbol : String
  name : String
  decimals : Nat
deriving DecidableEq, Repr

/-- A cached token record (`TokenDetails`): ERC20 metadata plus the exchange
slot `id` and display `image`. -/
structure TokenDetails where
  address : String
  id : Nat
  symbol : String
  name : String
  decimals : Nat
  image : Option String
deriving DecidableEq, Repr

/-- Result of one asynchronous external call: resolved value or rejection. -/
inductive CallResult (α : Type) where
  | ok (value : α)
  | err
deriving DecidableEq, Repr

/-- `Promise.all` over a pure list of calls: succeeds with all values iff no
member call fails. -/
def mapCalls {α β : Type} (f : α → CallResult β) : List α → CallResult (List β)
  | [] => .ok []
  | a :: as =>
    match f a with
    | .err => .err
    | .ok b =>
      match mapCalls f as with
      | .err => .err
      | .ok bs => .ok (b :: bs)

/-- The external collaborators for one fixed network, as deterministic
oracles.  `tcrTokens = none` models an unconfigured `tcrApi`. -/
structure Env where
  getNumTokens : CallResult Nat
  hasToken : String → CallResult Bool
  getTokenIdByAddress : String → CallResult Nat
  getTokenAddressById : Nat → CallResult String
  tcrTokens : Option (CallResult (List String))
  getTokenFromErc20 : String → CallResult (Option TokenErc20)

/-- Modelled from the spec: the `retry` helper of `utils` (whose source is not
part of the reconciliation module) re-invokes a failing asynchronous operation
up to a fixed bound with no delay.  Over a deterministic oracle every attempt
returns the same outcome, so the helper collapses to the wrapped call. -/
def retryCall {α : Type} (op : CallResult α) : CallResult α := op

/-- JavaScript `Set.add`: append the element unless already present. -/
def jsSetAdd (s : List String) (a : String) : List String :=
  if s.contains a then s else s ++ [a]

/-- `new Set(list)`: insertion-ordered deduplication. -/
def jsSetOfList (l : List String) : List String :=
  l.foldl jsSetAdd []

/-- JavaScript `Map.set`: overwrite in place if the key exists, else append. -/
def jsMapSet {β : Type} (m : List (String × β)) (k : String) (v : β) :
    List (String × β) :=
  if m.any (fun p => p.1 = k) then
    m.map (fun p => if p.1 = k then (k, v) else p)
  else m ++ [(k, v)]

/-- `new Map(pairs)`: insertion order of first occurrence, last value wins. -/
def jsMapOfPairs {β : Type} (ps : List (String × β)) : List (String × β) :=
  ps.foldl (fun m p => jsMapSet m p.1 p.2) []

/-- `UpdateTokenIdResult` of the source: the token plus the optional
`remove` / `failed` flags (absent flags modelled as `false`). -/
structure UpdateTokenIdResult where
  token : TokenDetails
  remove : Bool := false
  failed : Bool := false
deriving DecidableEq, Repr

/-- `updateTokenIdOrIndicateFailure`: ask the contract whether it still lists
the address; not listed → mark for removal; listed → overwrite the id; any
thrown call → mark failed, token unchanged. -/
def updateTokenIdOrIndicateFailure (env : Env) (token : TokenDetails) :
    UpdateTokenIdResult :=
  match env.hasToken token.address with
  | .err => { token := token, failed := true }
  | .ok false => { token := token, remove := true }
  | .ok true =>
    match env.getTokenIdByAddress token.address with
    | .err => { token := token, failed := true }
    | .ok i => { token := { token with id := i } }

/-- The three disjoint result groups built by the classifying `forEach` of
`updateTokenIds`. -/
structure Classified where
  updated : List (String × TokenDetails)
  failedToUpdate : List TokenDetails
  toRemove : List String
deriving DecidableEq, Repr

/-- One step of the classifying `forEach`. -/
def classifyStep (c : Classified) (r : UpdateTokenIdResult) : Classified :=
  if r.remove then { c with toRemove := jsSetAdd c.toRemove r.token.address }
  else if r.failed then
    { c with failedToUpdate := c.failedToUpdate ++ [r.token] }
  else { c with updated := jsMapSet c.updated r.token.address r.token }

/-- Classification of all per-token results, in order. -/
def classifyResults (results : List UpdateTokenIdResult) : Classified :=
  results.foldl classifyStep ⟨[], [], []⟩

/-- The `reduce` of `updateTokenIds` that rebuilds the network list: drop
removed addresses, substitute updated records, keep the rest. -/
def rebuildTokenList (cache : List TokenDetails) (toRemove : List String)
    (updated : List (String × TokenDetails)) : List TokenDetails :=
  cache.foldl
    (fun acc token =>
      if toRemove.contains token.address then acc
      else acc ++ [(List.lookup token.address updated).getD token])
    []

/-- Outcome of the awaited part of one `updateTokenIds` invocation: the list
handed to `persistTokens` (if any) and the failed subset kept for retry. -/
structure IdsPassResult where
  persisted : Option (List TokenDetails)
  failedToUpdate : List TokenDetails
deriving DecidableEq, Repr

/-- The awaited body of one `updateTokenIds` call (the per-token queries, the
classification, and the conditional rebuild-and-persist); retry scheduling is
modelled separately by `updateTokenIdsRun`. -/
def updateTokenIdsPass (env : Env) (cache tokens : List TokenDetails) :
    IdsPassResult :=
  let results := tokens.map (updateTokenIdOrIndicateFailure env)
  let c := classifyResults results
  if 0 < c.toRemove.length ∨ 0 < c.updated.length then
    ⟨some (rebuildTokenList cache c.toRemove c.updated), c.failedToUpdate⟩
  else
    ⟨none, c.failedToUpdate⟩

/-- Observable events of an id-refresh chain: a `persistTokens` call, a
`setTimeout` retry registration with its delay and batch, or the fatal
max-retries error naming the still-failing addresses. -/
inductive IdRefreshEvent where
  | persist (tokenList : List TokenDetails)
  | scheduleRetry (delay : Nat) (failedTokens : List TokenDetails)
  | fatal (addresses : List String)
deriving DecidableEq, Repr

/-- `updateTokenIds` followed through every scheduled retry: returns the final
cache and the ordered event trace.  The guard `maxRetries ≤ 0` throws before
any query; a non-empty failed subset schedules the next round after
`retryDelay`, passing `retryDelay * 2` when backoff is on (the recursive call
in the source omits the backoff argument, so the retried rounds use the
default `true`). -/
def updateTokenIdsRun (env : Env) (cache tokens : List TokenDetails)
    (maxRetries : Int) (retryDelay : Nat) (exponentialBackOff : Bool) :
    List TokenDetails × List IdRefreshEvent :=
  if h : maxRetries ≤ 0 then
    (cache, [.fatal (tokens.map (fun t => t.address))])
  else
    let pass := updateTokenIdsPass env cache tokens
    let cache' := pass.persisted.getD cache
    let persistEvents : List IdRefreshEvent :=
      match pass.persisted with
      | some l => [.persist l]
      | none => []
    if 0 < pass.failedToUpdate.length then
      let nextDelay := retryDelay * (if exponentialBackOff then 2 else 1)
      let rest :=
        updateTokenIdsRun env cache' pass.failedToUpdate (maxRetries - 1)
          nextDelay true
      (rest.1,
        persistEvents ++ [.scheduleRetry retryDelay pass.failedToUpdate]
          ++ rest.2)
    else
      (cache', persistEvents)
termination_by maxRetries.toNat
decreasing_by
  simp only [not_le] at h
  omega

/-- `getErc20DetailsOrAddress`: probe the address as an ERC20; a `null` probe
result is replaced by the original address string (for logging). -/
def getErc20DetailsOrAddress (env : Env) (tokenAddress : String) :
    CallResult (TokenErc20 ⊕ String) :=
  match env.getTokenFromErc20 tokenAddress with
  | .err => .err
  | .ok (some erc20Details) => .ok (Sum.inl erc20Details)
  | .ok none => .ok (Sum.inr tokenAddress)

/-- `fetchAddressesAndIds`: `numTokens` concurrent slot lookups
`0 .. numTokens - 1`, collected into the inverse address → id map. -/
def fetchAddressesAndIds (env : Env) (numTokens : Nat) :
    CallResult (List (String × Nat)) :=
  match
    mapCalls
      (fun tokenId =>
        match env.getTokenAddressById tokenId with
        | .err => .err
        | .ok tokenAddress => .ok (tokenAddress, tokenId))
      (List.range numTokens)
  with
  | .err => .err
  | .ok tokenAddressIdPairs => .ok (jsMapOfPairs tokenAddressIdPairs)

/-- `fetchTcrAddresses`: `new Set(tcrApi && await tcrApi.getTokens(...))` — an
absent registry yields the empty set without any call. -/
def fetchTcrAddresses (env : Env) : CallResult (List String) :=
  match env.tcrTokens with
  | none => .ok (jsSetOfList [])
  | some .err => .err
  | some (.ok addresses) => .ok (jsSetOfList addresses)

/-- `_getFilteredIdsMap`: the eligible address → id map for one pass.  A
non-empty TCR set filters the contract scan; otherwise the currently cached
tokens are looked up in the scan and those without a contract id dropped. -/
def filteredIdsMap (env : Env) (cache : List TokenDetails) (numTokens : Nat) :
    CallResult (List (String × Nat)) :=
  match retryCall (fetchTcrAddresses env),
      retryCall (fetchAddressesAndIds env numTokens) with
  | .ok tcrAddressesSet, .ok listedAddressesAndIds =>
    let filteredAddressAndIds : List (String × Nat) :=
      if 0 < tcrAddressesSet.length then
        listedAddressesAndIds.filter (fun p => tcrAddressesSet.contains p.1)
      else
        (cache.map (fun token =>
            match List.lookup token.address listedAddressesAndIds with
            | some tokenId => some (token.address, tokenId)
            | none => none)).filterMap id
    .ok (jsMapOfPairs filteredAddressAndIds)
  | _, _ => .err

/-- The `allTokensFromApi` map: cached tokens keyed by address. -/
def apiMapOf (cache : List TokenDetails) : List (String × TokenDetails) :=
  jsMapOfPairs (cache.map (fun t => (t.address, t)))

/-- The `localTokens` group of `updateTokenDetails`: eligible entries whose
address is already cached, reused as-is in map-entry order. -/
def localTokensOf (cache : List TokenDetails) (m : List (String × Nat)) :
    List TokenDetails :=
  m.filterMap (fun p => List.lookup p.1 (apiMapOf cache))

/-- The newly eligible entries of `updateTokenDetails`: eligible map entries
with no cached record. -/
def newEntriesOf (cache : List TokenDetails) (m : List (String × Nat)) :
    List (String × Nat) :=
  m.filter (fun p => (List.lookup p.1 (apiMapOf cache)).isNone)

/-- `{ ...partialToken, id }`: a `TokenDetails` built from probed ERC20
metadata and the contract-scan slot id. -/
def tokenFromErc20 (erc20 : TokenErc20) (id : Nat) : TokenDetails :=
  ⟨erc20.address, id, erc20.symbol, erc20.name, erc20.decimals, none⟩

/-- One metadata-fetch promise of `updateTokenDetails`: `none` models the
`undefined` produced for an invalid ERC20, later dropped by `filter(notEmpty)`. -/
def fetchNewToken (env : Env) (p : String × Nat) :
    CallResult (Option TokenDetails) :=
  match getErc20DetailsOrAddress env p.1 with
  | .err => .err
  | .ok (Sum.inr _) => .ok none
  | .ok (Sum.inl partialToken) => .ok (some (tokenFromErc20 partialToken p.2))

/-- The successfully resolved new tokens of a pass (used to state theorems;
`updateTokenDetails` computes the same list through `mapCalls`). -/
def resolvedNewOf (env : Env) (cache : List TokenDetails)
    (m : List (String × Nat)) : List TokenDetails :=
  (newEntriesOf cache m).filterMap (fun p =>
    match fetchNewToken env p with
    | .ok (some t) => some t
    | _ => none)

/-- `updateTokenDetails`: compute the eligible map, reuse cached records for
eligible addresses, concurrently probe the newly eligible ones, drop invalid
probes, and persist `localTokens ++ fetchedAndFilledTokenDetails`.  The
returned list is the one handed to `persistTokens`; `err` means the pass threw
and nothing was persisted. -/
def updateTokenDetails (env : Env) (cache : List TokenDetails)
    (numTokens : Nat) : CallResult (List TokenDetails) :=
  match filteredIdsMap env cache numTokens with
  | .err => .err
  | .ok filteredAddressesAndIds =>
    match mapCalls (fetchNewToken env)
        (newEntriesOf cache filteredAddressesAndIds) with
    | .err => .err
    | .ok results =>
      .ok (localTokensOf cache filteredAddressesAndIds ++ results.filterMap id)

/-- Outcome of one `updateTokens` orchestrator run, after its asynchronous
body settles: the final membership of the network in `areTokensUpdated`
(`flag`), the cache after any persist, and which branch executed. -/
structure UpdateOutcome where
  flag : Bool
  cache : List TokenDetails
  ranFull : Bool
  ranIdsOnly : Bool
deriving DecidableEq, Repr

/-- `updateTokens`: mark the network updated, fetch the on-chain count (with
retry), run the full reconciliation when the contract lists more tokens than
the cache, otherwise the awaited id-only pass over the cached tokens; any
escaping failure clears the flag.  The awaited `updateTokenIds` call (default
`maxRetries = 3`) never throws, so only the count fetch and the full
reconciliation can clear the flag. -/
def updateTokens (env : Env) (cache : List TokenDetails) : UpdateOutcome :=
  match retryCall env.getNumTokens with
  | .err => ⟨false, cache, false, false⟩
  | .ok numTokens =>
    if cache.length < numTokens then
      match updateTokenDetails env cache numTokens with
      | .err => ⟨false, cache, true, false⟩
      | .ok tokenList => ⟨true, tokenList, true, false⟩
    else
      let pass := updateTokenIdsPass env cache cache
      ⟨true, pass.persisted.getD cache, false, true⟩

/-- One call of the accessor returned by `getTokensFactory`, seen at its
synchronous return point: it returns the current cache; when the network is
not yet in `areTokensUpdated` it invokes `updateTokens`, whose first statement
adds the network to the set before any suspension point, so the flag is
already set when the accessor returns.  `triggered` records whether this call
invoked `updateTokens`. -/
structure AccessResult where
  returned : List TokenDetails
  flag : Bool
  triggered : Bool
deriving DecidableEq, Repr

/-- The synchronous portion of one accessor call. -/
def accessorStep (flag : Bool) (cache : List TokenDetails) : AccessResult :=
  if flag then ⟨cache, flag, false⟩
  else ⟨cache, true, true⟩

/-- `n` consecutive accessor calls with no intervening change to the cache or
to the update-state set (the pending background bodies have not yet resumed):
the returned lists, the final flag, and how many calls invoked `updateTokens`. -/
def accessorCalls : Nat → Bool → List TokenDetails →
    List (List TokenDetails) × Bool × Nat
  | 0, flag, _ => ([], flag, 0)
  | n + 1, flag, cache =>
    let r := accessorStep flag cache
    let rest := accessorCalls n r.flag cache
    (r.returned :: rest.1, rest.2.1,
      rest.2.2 + (if r.triggered then 1 else 0))

/-! ### Auxiliary lemmas about the JS collection models -/

lemma lookup_mem {β : Type} {l : List (String × β)} {k : String} {v : β}
    (h : List.lookup k l = some v) : (k, v) ∈ l := by
  induction l with
  | nil => simp [List.lookup] at h
  | cons p ps ih =>
    obtain ⟨k', v'⟩ := p
    rw [List.lookup] at h
    by_cases hk : k = k'
    · subst hk
      simp at h
      subst h
      exact List.mem_cons_self _ _
    · have hb : (k == k') = false := beq_false_of_ne hk
      rw [hb] at h
      exact List.mem_cons_of_mem _ (ih h)

lemma lookup_isSome_of_mem {β : Type} {l : List (String × β)} {k : String}
    {v : β} (h : (k, v) ∈ l) : (List.lookup k l).isSome := by
  induction l with
  | nil => simp at h
  | cons p ps ih =>
    obtain ⟨k', v'⟩ := p
    rw [List.lookup]
    by_cases hk : k = k'
    · subst hk; simp
    · have hb : (k == k') = false := beq_false_of_ne hk
      rw [hb]
      rcases List.mem_cons.1 h with h1 | h1
      · cases h1; simp at hk
      · exact ih h1

lemma mem_jsSetAdd {s : List String} {a b : String} :
    a ∈ jsSetAdd s b ↔ a ∈ s ∨ a = b := by
  unfold jsSetAdd
  by_cases hc : s.contains b
  · rw [if_pos hc]
    constructor
    · exact Or.inl
    · rintro (h | rfl)
      · exact h
      · exact List.elem_iff.1 hc
  · rw [if_neg hc]
    simp [List.mem_append]

lemma jsMapSet_forall {β : Type} {P : String → β → Prop}
    {m : List (String × β)} {k : String} {v : β}
    (hm : ∀ p ∈ m, P p.1 p.2) (hkv : P k v) :
    ∀ p ∈ jsMapSet m k v, P p.1 p.2 := by
  intro p hp
  unfold jsMapSet at hp
  by_cases hc : m.any (fun q => q.1 = k)
  · simp only [decide_eq_true_eq] at hc
    rw [if_pos (by simpa using hc)] at hp
    rcases List.mem_map.1 hp with ⟨q, hq, hpq⟩
    by_cases hqk : q.1 = k
    · rw [if_pos hqk] at hpq
      subst hpq
      exact hkv
    · rw [if_neg hqk] at hpq
      subst hpq
      exact hm q hq
  · rw [if_neg (by simpa using hc)] at hp
    rcases List.mem_append.1 hp with h1 | h1
    · exact hm p h1
    · rcases List.mem_singleton.1 h1 with rfl
      exact hkv

lemma jsMapOfPairs_forall {β : Type} {P : String → β → Prop}
    {ps : List (String × β)} (h : ∀ p ∈ ps, P p.1 p.2) :
    ∀ p ∈ jsMapOfPairs ps, P p.1 p.2 := by
  unfold jsMapOfPairs
  suffices hgen : ∀ (l : List (String × β)) (init : List (String × β)),
      (∀ p ∈ l, P p.1 p.2) → (∀ p ∈ init, P p.1 p.2) →
      ∀ p ∈ l.foldl (fun m p => jsMapSet m p.1 p.2) init, P p.1 p.2 by
    exact hgen ps [] h (by simp)
  intro l
  induction l with
  | nil => intro init _ hinit p hp; exact hinit p hp
  | cons q qs ih =>
    intro init hl hinit p hp
    rw [List.foldl_cons] at hp
    exact ih _ (fun r hr => hl r (List.mem_cons_of_mem _ hr))
      (jsMapSet_forall hinit (hl q (List.mem_cons_self _ _))) p hp

/-- Every entry of the `allTokensFromApi` map stores a token whose address is
its key. -/
lemma apiMapOf_addr {cache : List TokenDetails} {p : String × TokenDetails}
    (hp : p ∈ apiMapOf cache) : p.2.address = p.1 := by
  refine jsMapOfPairs_forall (P := fun k t => t.address = k) ?_ p hp
  intro q hq
  rcases List.mem_map.1 hq with ⟨t, _, rfl⟩
  rfl

lemma lookup_apiMapOf_addr {cache : List TokenDetails} {a : String}
    {t : TokenDetails} (h : List.lookup a (apiMapOf cache) = some t) :
    t.address = a :=
  apiMapOf_addr (lookup_mem h)

/-! ### Lemmas about classification and list rebuilding -/

lemma classify_foldl_toRemove (rs : List UpdateTokenIdResult) :
    ∀ (c : Classified) (a : String),
      (a ∈ (rs.foldl classifyStep c).toRemove ↔
        a ∈ c.toRemove ∨ ∃ r ∈ rs, r.remove = true ∧ r.token.address = a) := by
  induction rs with
  | nil => intro c a; simp
  | cons r rs ih =>
    intro c a
    rw [List.foldl_cons, ih]
    unfold classifyStep
    by_cases hr : r.remove
    · simp only [hr, if_true, mem_jsSetAdd]
      constructor
      · rintro ((h | rfl) | ⟨r', hr', h1, h2⟩)
        · exact Or.inl h
        · exact Or.inr ⟨r, List.mem_cons_self _ _, hr, rfl⟩
        · exact Or.inr ⟨r', List.mem_cons_of_mem _ hr', h1, h2⟩
      · rintro (h | ⟨r', hr', h1, h2⟩)
        · exact Or.inl (Or.inl h)
        · rcases List.mem_cons.1 hr' with rfl | hr'
          · exact Or.inl (Or.inr h2.symm)
          · exact Or.inr ⟨r', hr', h1, h2⟩
    · have hrf : r.remove = false := by simpa using hr
      by_cases hf : r.failed <;>
        · simp only [hrf, Bool.false_eq_true, if_false, hf, if_true, if_false]
          constructor
          · rintro (h | ⟨r', hr', h1, h2⟩)
            · exact Or.inl h
            · exact Or.inr ⟨r', List.mem_cons_of_mem _ hr', h1, h2⟩
          · rintro (h | ⟨r', hr', h1, h2⟩)
            · exact Or.inl h
            · rcases List.mem_cons.1 hr' with rfl | hr'
              · rw [h1] at hrf; cases hrf
              · exact Or.inr ⟨r', hr', h1, h2⟩

lemma classify_foldl_failed (rs : List UpdateTokenIdResult) :
    ∀ c : Classified,
      (rs.foldl classifyStep c).failedToUpdate =
        c.failedToUpdate ++
          (rs.filter (fun r => !r.remove && r.failed)).map (fun r => r.token) := by
  induction rs with
  | nil => intro c; simp
  | cons r rs ih =>
    intro c
    rw [List.foldl_cons, ih]
    unfold classifyStep
    by_cases hr : r.remove
    · simp [hr]
    · have hrf : r.remove = false := by simpa using hr
      by_cases hf : r.failed
      · simp [hrf, hf]
      · have hff : r.failed = false := by simpa using hf
        simp [hrf, hff]

lemma classify_foldl_updated_addr (rs : List UpdateTokenIdResult) :
    ∀ c : Classified, (∀ p ∈ c.updated, p.2.address = p.1) →
      ∀ p ∈ (rs.foldl classifyStep c).updated, p.2.address = p.1 := by
  induction rs with
  | nil => intro c hc p hp; exact hc p hp
  | cons r rs ih =>
    intro c hc p hp
    rw [List.foldl_cons] at hp
    refine ih _ ?_ p hp
    unfold classifyStep
    by_cases hr : r.remove
    · simpa [hr] using hc
    · have hrf : r.remove = false := by simpa using hr
      by_cases hf : r.failed
      · simpa [hrf, hf] using hc
      · have hff : r.failed = false := by simpa using hf
        simp only [hrf, Bool.false_eq_true, if_false, hff]
        exact jsMapSet_forall
          (P := fun (k : String) (t : TokenDetails) => t.address = k) hc rfl

lemma rebuildTokenList_eq_filterMap (cache : List TokenDetails)
    (rm : List String) (upd : List (String × TokenDetails)) :
    rebuildTokenList cache rm upd =
      cache.filterMap (fun t =>
        if rm.contains t.address then none
        else some ((List.lookup t.address upd).getD t)) := by
  unfold rebuildTokenList
  suffices hgen : ∀ (l : List TokenDetails) (init : List TokenDetails),
      l.foldl (fun acc token =>
        if rm.contains token.address then acc
        else acc ++ [(List.lookup token.address upd).getD token]) init =
      init ++ l.filterMap (fun t =>
        if rm.contains t.address then none
        else some ((List.lookup t.address upd).getD t)) by
    simpa using hgen cache []
  intro l
  induction l with
  | nil => intro init; simp
  | cons t ts ih =>
    intro init
    rw [List.foldl_cons, List.filterMap_cons]
    by_cases h : rm.contains t.address
    · rw [if_pos h, if_pos h, ih]
    · rw [if_neg h, if_neg h, ih, List.append_assoc]
      rfl

lemma mem_rebuildTokenList {cache : List TokenDetails} {rm : List String}
    {upd : List (String × TokenDetails)} {t' : TokenDetails} :
    t' ∈ rebuildTokenList cache rm upd ↔
      ∃ t0 ∈ cache, rm.contains t0.address = false ∧
        t' = (List.lookup t0.address upd).getD t0 := by
  rw [rebuildTokenList_eq_filterMap, List.mem_filterMap]
  constructor
  · rintro ⟨t0, ht0, h⟩
    by_cases hc : rm.contains t0.address
    · rw [if_pos hc] at h; cases h
    · rw [if_neg hc] at h
      exact ⟨t0, ht0, by simpa using hc, (Option.some_inj.1 h).symm⟩
  · rintro ⟨t0, ht0, hc, rfl⟩
    refine ⟨t0, ht0, ?_⟩
    rw [if_neg (by rw [hc]; exact Bool.false_ne_true)]

/-! ### Lemmas about `mapCalls` and the metadata fetches -/

/-- Value of a resolved call, `none` for a rejected one. -/
def CallResult.toOption {α : Type} : CallResult α → Option α
  | .ok v => some v
  | .err => none

lemma mapCalls_ok_of_forall {α β : Type} {f : α → CallResult β} {l : List α}
    (h : ∀ a ∈ l, f a ≠ .err) :
    mapCalls f l = .ok (l.filterMap (fun a => (f a).toOption)) := by
  induction l with
  | nil => rfl
  | cons a as ih =>
    have ha := h a (List.mem_cons_self _ _)
    cases hfa : f a with
    | err => exact absurd hfa ha
    | ok b =>
      rw [mapCalls, hfa, ih (fun x hx => h x (List.mem_cons_of_mem _ hx)),
        List.filterMap_cons, hfa]
      rfl

lemma mapCalls_ok_forall {α β : Type} {f : α → CallResult β} {l : List α}
    {bs : List β} (h : mapCalls f l = .ok bs) : ∀ a ∈ l, f a ≠ .err := by
  induction l generalizing bs with
  | nil => intro a ha; simp at ha
  | cons x xs ih =>
    intro a ha
    rw [mapCalls] at h
    cases hfx : f x with
    | err => rw [hfx] at h; cases h
    | ok b =>
      rw [hfx] at h
      cases hrest : mapCalls f xs with
      | err => rw [hrest] at h; cases h
      | ok bs' =>
        rcases List.mem_cons.1 ha with rfl | ha
        · rw [hfx]; intro hcontra; cases hcontra
        · exact ih hrest a ha

lemma fetchNewToken_err_iff {env : Env} {p : String × Nat} :
    fetchNewToken env p = .err ↔ env.getTokenFromErc20 p.1 = .err := by
  unfold fetchNewToken getErc20DetailsOrAddress
  cases h : env.getTokenFromErc20 p.1 with
  | err => simp
  | ok o => cases o <;> simp

lemma fetchNewToken_eq_some {env : Env} {p : String × Nat} {t : TokenDetails} :
    fetchNewToken env p = .ok (some t) ↔
      ∃ e, env.getTokenFromErc20 p.1 = .ok (some e) ∧ t = tokenFromErc20 e p.2 := by
  unfold fetchNewToken getErc20DetailsOrAddress
  cases h : env.getTokenFromErc20 p.1 with
  | err => simp
  | ok o =>
    cases o with
    | none => simp
    | some e =>
      simp only [CallResult.ok.injEq, Option.some.injEq]
      constructor
      · intro ht; exact ⟨e, rfl, ht.symm⟩
      · rintro ⟨e', he', rfl⟩
        rw [he']

lemma mem_localTokensOf {cache : List TokenDetails} {m : List (String × Nat)}
    {t : TokenDetails} :
    t ∈ localTokensOf cache m ↔
      ∃ p ∈ m, List.lookup p.1 (apiMapOf cache) = some t := by
  unfold localTokensOf
  exact List.mem_filterMap

lemma mem_resolvedNewOf {env : Env} {cache : List TokenDetails}
    {m : List (String × Nat)} {t : TokenDetails} :
    t ∈ resolvedNewOf env cache m ↔
      ∃ p ∈ newEntriesOf cache m, ∃ e,
        env.getTokenFromErc20 p.1 = .ok (some e) ∧ t = tokenFromErc20 e p.2 := by
  unfold resolvedNewOf
  rw [List.mem_filterMap]
  constructor
  · rintro ⟨p, hp, h⟩
    cases hf : fetchNewToken env p with
    | err => rw [hf] at h; cases h
    | ok o =>
      cases o with
      | none => rw [hf] at h; cases h
      | some t' =>
        rw [hf] at h
        rcases Option.some_inj.1 h with rfl
        exact ⟨p, hp, fetchNewToken_eq_some.1 hf⟩
  · rintro ⟨p, hp, e, he, rfl⟩
    refine ⟨p, hp, ?_⟩
    rw [fetchNewToken_eq_some.2 ⟨e, he, rfl⟩]

lemma updateTokenDetails_ok_eq {env : Env} {cache : List TokenDetails}
    {n : Nat} {m : List (String × Nat)}
    (hm : filteredIdsMap env cache n = .ok m)
    (hok : ∀ p ∈ newEntriesOf cache m, env.getTokenFromErc20 p.1 ≠ .err) :
    updateTokenDetails env cache n =
      .ok (localTokensOf cache m ++ resolvedNewOf env cache m) := by
  have hok' : ∀ p ∈ newEntriesOf cache m, fetchNewToken env p ≠ .err := by
    intro p hp hcontra
    exact hok p hp (fetchNewToken_err_iff.1 hcontra)
  simp only [updateTokenDetails, hm, mapCalls_ok_of_forall hok']
  congr 1
  rw [List.filterMap_filterMap]
  unfold resolvedNewOf
  have hfuneq : (fun x => ((fetchNewToken env x).toOption).bind id) =
      (fun p => match fetchNewToken env p with
        | CallResult.ok (some t) => some t
        | _ => none) := by
    funext p
    cases hf : fetchNewToken env p with
    | err => rfl
    | ok o => cases o <;> rfl
  rw [hfuneq]

lemma updateTokenDetails_ok_inv {env : Env} {cache : List TokenDetails}
    {n : Nat} {L : List TokenDetails}
    (h : updateTokenDetails env cache n = .ok L) :
    ∃ m, filteredIdsMap env cache n = .ok m ∧
      (∀ p ∈ newEntriesOf cache m, env.getTokenFromErc20 p.1 ≠ .err) ∧
      L = localTokensOf cache m ++ resolvedNewOf env cache m := by
  cases hm : filteredIdsMap env cache n with
  | err =>
    simp only [updateTokenDetails, hm] at h
    exact absurd h (by simp)
  | ok m =>
    cases hmc : mapCalls (fetchNewToken env) (newEntriesOf cache m) with
    | err =>
      simp only [updateTokenDetails, hm, hmc] at h
      exact absurd h (by simp)
    | ok results =>
      have hok' := mapCalls_ok_forall hmc
      have hok : ∀ p ∈ newEntriesOf cache m,
          env.getTokenFromErc20 p.1 ≠ .err := by
        intro p hp hcontra
        exact hok' p hp (fetchNewToken_err_iff.2 hcontra)
      refine ⟨m, rfl, hok, ?_⟩
      have heq := updateTokenDetails_ok_eq hm hok
      rw [heq] at h
      injection h with h1
      exact h1.symm

/-! ### Lemmas about the id-only refresh pass -/

lemma pass_failed_fails {env : Env} {cache tokens : List TokenDetails} :
    ∀ t ∈ (updateTokenIdsPass env cache tokens).failedToUpdate,
      updateTokenIdOrIndicateFailure env t =
        { token := t, remove := false, failed := true } := by
  intro t ht
  have hfail : t ∈ ((tokens.map (updateTokenIdOrIndicateFailure env)).filter
      (fun r => !r.remove && r.failed)).map (fun r => r.token) := by
    have hp : (updateTokenIdsPass env cache tokens).failedToUpdate =
        (classifyResults (tokens.map (updateTokenIdOrIndicateFailure env))).failedToUpdate := by
      unfold updateTokenIdsPass
      by_cases h : 0 < (classifyResults
          (tokens.map (updateTokenIdOrIndicateFailure env))).toRemove.length ∨
          0 < (classifyResults
          (tokens.map (updateTokenIdOrIndicateFailure env))).updated.length
      · rw [if_pos h]
      · rw [if_neg h]
    rw [hp] at ht
    unfold classifyResults at ht
    rw [classify_foldl_failed] at ht
    simpa using ht
  rcases List.mem_map.1 hfail with ⟨r, hr, rfl⟩
  rcases List.mem_filter.1 hr with ⟨hrmem, hcond⟩
  rcases List.mem_map.1 hrmem with ⟨t0, _, rfl⟩
  rw [Bool.and_eq_true] at hcond
  obtain ⟨h1, h2⟩ := hcond
  have h1' : (updateTokenIdOrIndicateFailure env t0).remove = false := by
    simpa using h1
  have hg : updateTokenIdOrIndicateFailure env t0 =
      { token := t0, remove := false, failed := true } := by
    unfold updateTokenIdOrIndicateFailure at h1' h2 ⊢
    cases hht : env.hasToken t0.address with
    | err => rfl
    | ok b =>
      rw [hht] at h1' h2
      cases b with
      | false => simp at h1'
      | true =>
        cases hid : env.getTokenIdByAddress t0.address with
        | err => rfl
        | ok i => rw [hid] at h2; simp at h2
  rw [hg]
  exact hg

lemma pass_all_failed {env : Env} {cache tokens : List TokenDetails}
    (h : ∀ t ∈ tokens, updateTokenIdOrIndicateFailure env t =
      { token := t, remove := false, failed := true }) :
    updateTokenIdsPass env cache tokens = ⟨none, tokens⟩ := by
  have hres : ∀ r ∈ tokens.map (updateTokenIdOrIndicateFailure env),
      r.remove = false ∧ r.failed = true := by
    intro r hr
    rcases List.mem_map.1 hr with ⟨t, ht, rfl⟩
    rw [h t ht]
    exact ⟨rfl, rfl⟩
  have hcl : ∀ (rs : List UpdateTokenIdResult) (c : Classified),
      (∀ r ∈ rs, r.remove = false ∧ r.failed = true) →
      rs.foldl classifyStep c =
        { c with failedToUpdate := c.failedToUpdate ++ rs.map (fun r => r.token) } := by
    intro rs
    induction rs with
    | nil => intro c _; simp
    | cons r rs ih =>
      intro c hrs
      rcases hrs r (List.mem_cons_self _ _) with ⟨h1, h2⟩
      rw [List.foldl_cons]
      have hstep : classifyStep c r =
          { c with failedToUpdate := c.failedToUpdate ++ [r.token] } := by
        unfold classifyStep
        rw [h1, h2]
        simp
      rw [hstep, ih _ (fun r' hr' => hrs r' (List.mem_cons_of_mem _ hr'))]
      simp
  have htok : (tokens.map (updateTokenIdOrIndicateFailure env)).map
      (fun r => r.token) = tokens := by
    rw [List.map_map]
    refine List.map_congr_left ?_ |>.trans (List.map_id _)
    intro t ht
    simp [Function.comp, h t ht]
  simp only [updateTokenIdsPass, classifyResults]
  rw [hcl _ _ hres]
  simp [htok]

/-! ### Unfolding lemmas for the retry chain and the accessor -/

lemma run_fatal {env : Env} {cache tokens : List TokenDetails} {m : Int}
    {d : Nat} {b : Bool} (h : m ≤ 0) :
    updateTokenIdsRun env cache tokens m d b =
      (cache, [.fatal (tokens.map (fun t => t.address))]) := by
  rw [updateTokenIdsRun]
  rw [dif_pos h]

lemma run_step {env : Env} {cache tokens : List TokenDetails} {m : Int}
    {d : Nat} {b : Bool} (h : ¬ m ≤ 0)
    (hf : 0 < (updateTokenIdsPass env cache tokens).failedToUpdate.length) :
    updateTokenIdsRun env cache tokens m d b =
      ((updateTokenIdsRun env
          ((updateTokenIdsPass env cache tokens).persisted.getD cache)
          (updateTokenIdsPass env cache tokens).failedToUpdate (m - 1)
          (d * (if b then 2 else 1)) true).1,
        (match (updateTokenIdsPass env cache tokens).persisted with
          | some l => [IdRefreshEvent.persist l]
          | none => []) ++
          [IdRefreshEvent.scheduleRetry d
            (updateTokenIdsPass env cache tokens).failedToUpdate] ++
          (updateTokenIdsRun env
            ((updateTokenIdsPass env cache tokens).persisted.getD cache)
            (updateTokenIdsPass env cache tokens).failedToUpdate (m - 1)
            (d * (if b then 2 else 1)) true).2) := by
  conv_lhs => rw [updateTokenIdsRun]
  rw [dif_neg h]
  simp only [if_pos hf]

lemma run_done {env : Env} {cache tokens : List TokenDetails} {m : Int}
    {d : Nat} {b : Bool} (h : ¬ m ≤ 0)
    (hf : ¬ 0 < (updateTokenIdsPass env cache tokens).failedToUpdate.length) :
    updateTokenIdsRun env cache tokens m d b =
      ((updateTokenIdsPass env cache tokens).persisted.getD cache,
        match (updateTokenIdsPass env cache tokens).persisted with
        | some l => [IdRefreshEvent.persist l]
        | none => []) := by
  conv_lhs => rw [updateTokenIdsRun]
  rw [dif_neg h]
  simp only [if_neg hf]

lemma run_step_allfail {env : Env} {c F : List TokenDetails} {m : Int} {d : Nat}
    (hm : ¬ m ≤ 0) (hne : F ≠ [])
    (hfail : ∀ t ∈ F, updateTokenIdOrIndicateFailure env t =
      { token := t, remove := false, failed := true }) :
    updateTokenIdsRun env c F m d true =
      ((updateTokenIdsRun env c F (m - 1) (d * 2) true).1,
        IdRefreshEvent.scheduleRetry d F ::
          (updateTokenIdsRun env c F (m - 1) (d * 2) true).2) := by
  have hpass : updateTokenIdsPass env c F = ⟨none, F⟩ := pass_all_failed hfail
  rw [run_step hm (by rw [hpass]; exact List.length_pos.2 hne)]
  simp only [hpass, Option.getD_none, if_true]
  rfl

lemma accessorCalls_flagged (cache : List TokenDetails) :
    ∀ n : Nat, accessorCalls n true cache = (List.replicate n cache, true, 0) := by
  intro n
  induction n with
  | zero => rfl
  | succ k ih =>
    rw [accessorCalls]
    simp only [accessorStep, if_true, ih]
    rfl

/-! ### Concrete environments used in scenario theorems and witnesses -/

/-- Cached token A with slot id 0. -/
def tokA : TokenDetails := ⟨"0xA", 0, "A", "Token A", 18, none⟩

/-- Cached token B with slot id 1. -/
def tokB : TokenDetails := ⟨"0xB", 1, "B", "Token B", 18, none⟩

/-- ERC20 metadata of the newly listed token C. -/
def ercC : TokenErc20 := ⟨"0xC", "C", "Token C", 18⟩

/-- Token C as it would be persisted with slot id 2. -/
def tokC : TokenDetails := tokenFromErc20 ercC 2

/-- The C1 scenario: registry unconfigured, contract lists [A, B, C] in slots
0, 1, 2, every external call succeeds, and C's metadata resolves. -/
def envC1 : Env where
  getNumTokens := .ok 3
  hasToken := fun _ => .ok true
  getTokenIdByAddress := fun a =>
    if a = "0xA" then .ok 0 else if a = "0xB" then .ok 1 else .ok 2
  getTokenAddressById := fun i =>
    if i = 0 then .ok "0xA"
    else if i = 1 then .ok "0xB"
    else if i = 2 then .ok "0xC"
    else .err
  tcrTokens := none
  getTokenFromErc20 := fun a =>
    if a = "0xC" then .ok (some ercC) else .ok none

/-- An environment whose every external call fails. -/
def envErr : Env where
  getNumTokens := .err
  hasToken := fun _ => .err
  getTokenIdByAddress := fun _ => .err
  getTokenAddressById := fun _ => .err
  tcrTokens := none
  getTokenFromErc20 := fun _ => .err

/-! ### Claim theorems -/

/-- C1 counterexample: in the stated scenario (cache [A,B] with ids 0,1;
contract reports 3 tokens [A,B,C]; registry unconfigured; all calls succeed)
the full reconciliation does run, but the persisted list is [A,B], not
[A,B,C]: the registry-absent fallback restricts eligibility to the already
cached addresses, so C is never added. -/
theorem c1_fallback_scenario_counterexample :
    (updateTokens envC1 [tokA, tokB]).ranFull = true ∧
    (updateTokens envC1 [tokA, tokB]).cache = [tokA, tokB] ∧
    (updateTokens envC1 [tokA, tokB]).cache ≠ [tokA, tokB, tokC] := by
  decide

/-- C1 (amended): in the scenario where the local cache holds [A,B] (ids 0,1),
the contract reports numTokens = 3 with slot addresses [A,B,C], the registry
is unconfigured, and every external call succeeds, updateTokens runs the full
metadata reconciliation, but the fallback eligibility set is the cached
address set, so C's metadata is never used and the final persisted list is
[A,B]; the update completes successfully (flag stays set). -/
theorem c1_fallback_scenario_amended :
    updateTokens envC1 [tokA, tokB] =
      { flag := true, cache := [tokA, tokB], ranFull := true,
        ranIdsOnly := false } := by
  decide

/-- C2: whenever the on-chain token count fetch succeeds with value `n`,
updateTokens runs the full metadata reconciliation exactly when `n` is
strictly greater than the cached list's length, and the id-only refresh
exactly otherwise. -/
theorem updateTokens_branch_decision (env : Env) (cache : List TokenDetails)
    (n : Nat) (h : retryCall env.getNumTokens = .ok n) :
    ((updateTokens env cache).ranFull = true ↔ cache.length < n) ∧
    ((updateTokens env cache).ranIdsOnly = true ↔ n ≤ cache.length) := by
  simp only [updateTokens, h]
  by_cases hlt : cache.length < n
  · rw [if_pos hlt]
    cases hud : updateTokenDetails env cache n with
    | err =>
      refine ⟨by simpa using hlt, ?_⟩
      simp only [Bool.false_eq_true, false_iff]
      omega
    | ok l =>
      refine ⟨by simpa using hlt, ?_⟩
      simp only [Bool.false_eq_true, false_iff]
      omega
  · rw [if_neg hlt]
    refine ⟨?_, ?_⟩
    · simp only [Bool.false_eq_true, false_iff]
      omega
    · simpa using by omega
  
theorem updateTokens_branch_decision_witness :
    retryCall envC1.getNumTokens = .ok 3 ∧
    (((updateTokens envC1 [tokA, tokB]).ranFull = true ↔
        [tokA, tokB].length < 3) ∧
      ((updateTokens envC1 [tokA, tokB]).ranIdsOnly = true ↔
        3 ≤ [tokA, tokB].length)) :=
  ⟨by decide, updateTokens_branch_decision envC1 [tokA, tokB] 3 (by decide)⟩

/-- C4: if the count fetch fails, or the full reconciliation is entered and
fails, the update-attempted flag ends false and the next accessor call
triggers updateTokens again. -/
theorem updateTokens_failure_clears_flag (env : Env)
    (cache : List TokenDetails)
    (h : retryCall env.getNumTokens = .err ∨
      ∃ n, retryCall env.getNumTokens = .ok n ∧ cache.length < n ∧
        updateTokenDetails env cache n = .err) :
    (updateTokens env cache).flag = false ∧
    (accessorStep (updateTokens env cache).flag
      (updateTokens env cache).cache).triggered = true := by
  have hflag : (updateTokens env cache).flag = false := by
    rcases h with h | ⟨n, hn, hlt, hdet⟩
    · simp only [updateTokens, h]
    · simp only [updateTokens, hn, if_pos hlt, hdet]
  refine ⟨hflag, ?_⟩
  rw [hflag]
  rfl

theorem updateTokens_failure_clears_flag_witness :
    (retryCall envErr.getNumTokens = .err ∨
      ∃ n, retryCall envErr.getNumTokens = .ok n ∧ (([] : List TokenDetails)).length < n ∧
        updateTokenDetails envErr [] n = .err) ∧
    ((updateTokens envErr []).flag = false ∧
      (accessorStep (updateTokens envErr []).flag
        (updateTokens envErr []).cache).triggered = true) :=
  ⟨Or.inl (by decide),
    updateTokens_failure_clears_flag envErr [] (Or.inl (by decide))⟩

/-- C9: starting from a network not yet marked updated, any sequence of `n ≥ 1`
accessor calls with no intervening state change returns the cached list every
time, triggers updateTokens exactly once (on the first call, which sets the
flag synchronously), and leaves the flag set. -/
theorem accessor_idempotent (cache : List TokenDetails) (n : Nat)
    (h : 1 ≤ n) :
    (∀ l ∈ (accessorCalls n false cache).1, l = cache) ∧
    (accessorCalls n false cache).2.2 = 1 ∧
    (accessorCalls n false cache).2.1 = true := by
  obtain ⟨k, rfl⟩ : ∃ k, n = k + 1 := ⟨n - 1, by omega⟩
  have hcalls : accessorCalls (k + 1) false cache =
      (cache :: List.replicate k cache, true, 1) := by
    rw [accessorCalls]
    have hstep : accessorStep false cache =
        ⟨cache, true, true⟩ := rfl
    rw [hstep]
    simp only [accessorCalls_flagged]
    rfl
  rw [hcalls]
  refine ⟨?_, rfl, rfl⟩
  intro l hl
  rcases List.mem_cons.1 hl with rfl | hl
  · rfl
  · exact List.eq_of_mem_replicate hl

theorem accessor_idempotent_witness :
    1 ≤ 2 ∧
    ((∀ l ∈ (accessorCalls 2 false [tokA]).1, l = [tokA]) ∧
      (accessorCalls 2 false [tokA]).2.2 = 1 ∧
      (accessorCalls 2 false [tokA]).2.1 = true) :=
  ⟨by decide, accessor_idempotent [tokA] 2 (by decide)⟩

/-- C3: in any id-only refresh pass over the cached tokens in which at least
one token was classified as removed or updated, the persisted list is the
cached list with removed addresses dropped and updated records substituted,
and no token whose hasToken query returned false remains in it. -/
theorem idRefresh_persist_drops_removed (env : Env) (cache : List TokenDetails)
    (c : Classified)
    (hc : c = classifyResults (cache.map (updateTokenIdOrIndicateFailure env)))
    (h : 0 < c.toRemove.length ∨ 0 < c.updated.length) :
    (updateTokenIdsPass env cache cache).persisted =
      some (rebuildTokenList cache c.toRemove c.updated) ∧
    ∀ t ∈ rebuildTokenList cache c.toRemove c.updated,
      env.hasToken t.address ≠ .ok false := by
  subst hc
  constructor
  · simp only [updateTokenIdsPass]
    rw [if_pos h]
  · intro t' ht' hfalse
    rcases mem_rebuildTokenList.1 ht' with ⟨t0, ht0, hnc, heq⟩
    have haddr : t'.address = t0.address := by
      cases hl : List.lookup t0.address
          (classifyResults (cache.map (updateTokenIdOrIndicateFailure env))).updated with
      | none => rw [hl] at heq; rw [heq]; rfl
      | some u =>
        rw [hl] at heq
        have hu : u.address = t0.address := by
          have hmem := lookup_mem hl
          have := classify_foldl_updated_addr
            (cache.map (updateTokenIdOrIndicateFailure env))
            ⟨[], [], []⟩ (by simp) (t0.address, u) hmem
          exact this
        rw [heq]
        simpa using hu
    have hfalse0 : env.hasToken t0.address = .ok false := by
      rw [← haddr]; exact hfalse
    have hrem : updateTokenIdOrIndicateFailure env t0 =
        { token := t0, remove := true, failed := false } := by
      unfold updateTokenIdOrIndicateFailure
      rw [hfalse0]
    have hmem : t0.address ∈ (classifyResults
        (cache.map (updateTokenIdOrIndicateFailure env))).toRemove := by
      unfold classifyResults
      rw [classify_foldl_toRemove]
      refine Or.inr ⟨updateTokenIdOrIndicateFailure env t0,
        List.mem_map_of_mem _ ht0, ?_, ?_⟩
      · rw [hrem]
      · rw [hrem]
    have hcontains := List.elem_iff.2 hmem
    have hc2 : List.elem t0.address (classifyResults
        (cache.map (updateTokenIdOrIndicateFailure env))).toRemove = false := hnc
    rw [hcontains] at hc2
    cases hc2

/-- Environment for the C3 witness: B is no longer listed, A still is. -/
def envRm : Env where
  getNumTokens := .ok 2
  hasToken := fun a => if a = "0xB" then .ok false else .ok true
  getTokenIdByAddress := fun _ => .ok 5
  getTokenAddressById := fun _ => .err
  tcrTokens := none
  getTokenFromErc20 := fun _ => .ok none

theorem idRefresh_persist_drops_removed_witness :
    ((0 < (classifyResults
        ([tokA, tokB].map (updateTokenIdOrIndicateFailure envRm))).toRemove.length ∨
      0 < (classifyResults
        ([tokA, tokB].map (updateTokenIdOrIndicateFailure envRm))).updated.length)) ∧
    ((updateTokenIdsPass envRm [tokA, tokB] [tokA, tokB]).persisted =
      some (rebuildTokenList [tokA, tokB]
        (classifyResults
          ([tokA, tokB].map (updateTokenIdOrIndicateFailure envRm))).toRemove
        (classifyResults
          ([tokA, tokB].map (updateTokenIdOrIndicateFailure envRm))).updated) ∧
    ∀ t ∈ rebuildTokenList [tokA, tokB]
        (classifyResults
          ([tokA, tokB].map (updateTokenIdOrIndicateFailure envRm))).toRemove
        (classifyResults
          ([tokA, tokB].map (updateTokenIdOrIndicateFailure envRm))).updated,
      envRm.hasToken t.address ≠ .ok false) :=
  ⟨by decide,
    idRefresh_persist_drops_removed envRm [tokA, tokB] _ rfl (by decide)⟩

/-- C6: whenever the eligible-map computation succeeds and every metadata
probe for a newly eligible address resolves (possibly to null), the full
reconciliation persists — unconditionally, even when nothing new resolved —
and the persisted list is the cached eligible tokens concatenated with the
successfully resolved new tokens. -/
theorem fullReconciliation_persists_concat (env : Env)
    (cache : List TokenDetails) (n : Nat) (m : List (String × Nat))
    (hm : filteredIdsMap env cache n = .ok m)
    (hok : ∀ p ∈ newEntriesOf cache m, env.getTokenFromErc20 p.1 ≠ .err) :
    updateTokenDetails env cache n =
      .ok (localTokensOf cache m ++ resolvedNewOf env cache m) :=
  updateTokenDetails_ok_eq hm hok

/-- Environment with a configured registry listing A and C; the contract lists
[A, B, C] and C's metadata resolves. -/
def envTcr : Env where
  getNumTokens := .ok 3
  hasToken := fun _ => .ok true
  getTokenIdByAddress := fun _ => .ok 0
  getTokenAddressById := fun i =>
    if i = 0 then .ok "0xA"
    else if i = 1 then .ok "0xB"
    else if i = 2 then .ok "0xC"
    else .err
  tcrTokens := some (.ok ["0xA", "0xC"])
  getTokenFromErc20 := fun a =>
    if a = "0xC" then .ok (some ercC) else .ok none

theorem fullReconciliation_persists_concat_witness :
    (filteredIdsMap envTcr [tokA, tokB] 3 = .ok [("0xA", 0), ("0xC", 2)] ∧
      ∀ p ∈ newEntriesOf [tokA, tokB] [("0xA", 0), ("0xC", 2)],
        envTcr.getTokenFromErc20 p.1 ≠ .err) ∧
    updateTokenDetails envTcr [tokA, tokB] 3 =
      .ok (localTokensOf [tokA, tokB] [("0xA", 0), ("0xC", 2)] ++
        resolvedNewOf envTcr [tokA, tokB] [("0xA", 0), ("0xC", 2)]) :=
  ⟨⟨by decide, by decide⟩,
    fullReconciliation_persists_concat envTcr [tokA, tokB] 3 _
      (by decide) (by decide)⟩

/-- The metadata resolver of `envTcr` is address-consistent. -/
lemma envTcr_res : ∀ a e, envTcr.getTokenFromErc20 a = .ok (some e) →
    e.address = a := by
  intro a e h
  by_cases ha : a = "0xC"
  · subst ha
    simp [envTcr] at h
    rw [← h]
    rfl
  · simp [envTcr, ha] at h

/-- C7: after any full reconciliation that completes without error (and with a
metadata resolver that reports metadata for the probed address), every token
in the persisted list has its address among the keys of the eligible
address→id map computed for that pass. -/
theorem fullReconciliation_respects_eligible (env : Env)
    (cache : List TokenDetails) (n : Nat) (m : List (String × Nat))
    (L : List TokenDetails)
    (hm : filteredIdsMap env cache n = .ok m)
    (hres : ∀ a e, env.getTokenFromErc20 a = .ok (some e) → e.address = a)
    (hL : updateTokenDetails env cache n = .ok L) :
    ∀ t ∈ L, (List.lookup t.address m).isSome := by
  rcases updateTokenDetails_ok_inv hL with ⟨m', hm', hok, rfl⟩
  have hmm : m' = m := by
    rw [hm] at hm'
    injection hm' with h2
    exact h2.symm
  rw [hmm]
  intro t ht
  rcases List.mem_append.1 ht with htl | htr
  · rcases mem_localTokensOf.1 htl with ⟨p, hp, hlook⟩
    have haddr : t.address = p.1 := lookup_apiMapOf_addr hlook
    rw [haddr]
    exact lookup_isSome_of_mem (v := p.2) (by simpa using hp)
  · rcases mem_resolvedNewOf.1 htr with ⟨p, hp, e, he, rfl⟩
    have haddr : (tokenFromErc20 e p.2).address = p.1 := hres p.1 e he
    rw [haddr]
    have hpm : p ∈ m := (List.mem_filter.1 hp).1
    exact lookup_isSome_of_mem (v := p.2) (by simpa using hpm)

theorem fullReconciliation_respects_eligible_witness :
    (filteredIdsMap envTcr [tokA, tokB] 3 = .ok [("0xA", 0), ("0xC", 2)] ∧
      updateTokenDetails envTcr [tokA, tokB] 3 = .ok [tokA, tokC]) ∧
    ∀ t ∈ [tokA, tokC],
      (List.lookup t.address [("0xA", 0), ("0xC", 2)]).isSome :=
  ⟨⟨by decide, by decide⟩,
    fullReconciliation_respects_eligible envTcr [tokA, tokB] 3
      [("0xA", 0), ("0xC", 2)] [tokA, tokC] (by decide) envTcr_res (by decide)⟩

/-- C8: during a full reconciliation, a newly eligible address X whose
metadata probe returns null is silently excluded: the pass still completes
without error and persists, and no token with address X appears in the
persisted list. -/
theorem probeNull_silently_excluded (env : Env) (cache : List TokenDetails)
    (n : Nat) (m : List (String × Nat)) (X : String) (i : Nat)
    (hm : filteredIdsMap env cache n = .ok m)
    (_hXm : (X, i) ∈ m)
    (hXnew : List.lookup X (apiMapOf cache) = none)
    (hprobe : env.getTokenFromErc20 X = .ok none)
    (hres : ∀ a e, env.getTokenFromErc20 a = .ok (some e) → e.address = a)
    (hok : ∀ p ∈ newEntriesOf cache m, env.getTokenFromErc20 p.1 ≠ .err) :
    updateTokenDetails env cache n =
      .ok (localTokensOf cache m ++ resolvedNewOf env cache m) ∧
    ∀ t ∈ localTokensOf cache m ++ resolvedNewOf env cache m,
      t.address ≠ X := by
  refine ⟨updateTokenDetails_ok_eq hm hok, ?_⟩
  intro t ht hX
  rcases List.mem_append.1 ht with htl | htr
  · rcases mem_localTokensOf.1 htl with ⟨p, hp, hlook⟩
    have haddr : t.address = p.1 := lookup_apiMapOf_addr hlook
    rw [hX] at haddr
    rw [← haddr] at hlook
    rw [hXnew] at hlook
    cases hlook
  · rcases mem_resolvedNewOf.1 htr with ⟨p, hp, e, he, rfl⟩
    have haddr : (tokenFromErc20 e p.2).address = p.1 := hres p.1 e he
    rw [hX] at haddr
    rw [← haddr] at he
    rw [hprobe] at he
    cases he

/-- Environment for the C8 witness: the registry lists A, X and C; X's
metadata probe returns null, C's resolves. -/
def envX : Env where
  getNumTokens := .ok 3
  hasToken := fun _ => .ok true
  getTokenIdByAddress := fun _ => .ok 0
  getTokenAddressById := fun i =>
    if i = 0 then .ok "0xA"
    else if i = 1 then .ok "0xX"
    else if i = 2 then .ok "0xC"
    else .err
  tcrTokens := some (.ok ["0xA", "0xX", "0xC"])
  getTokenFromErc20 := fun a =>
    if a = "0xC" then .ok (some ercC) else .ok none

/-- The metadata resolver of `envX` is address-consistent. -/
lemma envX_res : ∀ a e, envX.getTokenFromErc20 a = .ok (some e) →
    e.address = a := by
  intro a e h
  by_cases ha : a = "0xC"
  · subst ha
    simp [envX] at h
    rw [← h]
    rfl
  · simp [envX, ha] at h

theorem probeNull_silently_excluded_witness :
    (filteredIdsMap envX [tokA] 3 =
        .ok [("0xA", 0), ("0xX", 1), ("0xC", 2)] ∧
      ("0xX", 1) ∈ [(("0xA" : String), (0 : Nat)), ("0xX", 1), ("0xC", 2)] ∧
      List.lookup "0xX" (apiMapOf [tokA]) = none ∧
      envX.getTokenFromErc20 "0xX" = .ok none) ∧
    (updateTokenDetails envX [tokA] 3 =
      .ok (localTokensOf [tokA] [("0xA", 0), ("0xX", 1), ("0xC", 2)] ++
        resolvedNewOf envX [tokA] [("0xA", 0), ("0xX", 1), ("0xC", 2)]) ∧
    ∀ t ∈ localTokensOf [tokA] [("0xA", 0), ("0xX", 1), ("0xC", 2)] ++
        resolvedNewOf envX [tokA] [("0xA", 0), ("0xX", 1), ("0xC", 2)],
      t.address ≠ "0xX") :=
  ⟨⟨by decide, by decide, by decide, by decide⟩,
    probeNull_silently_excluded envX [tokA] 3
      [("0xA", 0), ("0xX", 1), ("0xC", 2)] "0xX" 1
      (by decide) (by decide) (by decide) (by decide) envX_res (by decide)⟩

/-- C10 (implicit): during a full reconciliation, an eligible address already
present in the cache is reused as the exact cached record — all fields
including the id — even when the slot id the contract scan reports for it
differs from the cached id; the stale cached id is what ends up persisted. -/
theorem staleId_reused_for_cached (env : Env) (cache : List TokenDetails)
    (n : Nat) (m : List (String × Nat)) (a : String) (i : Nat)
    (t : TokenDetails) (L : List TokenDetails)
    (hm : filteredIdsMap env cache n = .ok m)
    (hmem : (a, i) ∈ m)
    (ht : List.lookup a (apiMapOf cache) = some t)
    (hL : updateTokenDetails env cache n = .ok L)
    (hstale : t.id ≠ i) :
    t ∈ L ∧ t.id ≠ i := by
  rcases updateTokenDetails_ok_inv hL with ⟨m', hm', hok, rfl⟩
  have hmm : m' = m := by
    rw [hm] at hm'
    injection hm' with h2
    exact h2.symm
  rw [hmm]
  refine ⟨List.mem_append.2 (Or.inl ?_), hstale⟩
  exact mem_localTokensOf.2 ⟨(a, i), hmem, ht⟩

/-- Environment for the C10 witness: the contract now assigns slot 1 to the
cached token A (whose cached id is 0). -/
def envStale : Env where
  getNumTokens := .ok 2
  hasToken := fun _ => .ok true
  getTokenIdByAddress := fun _ => .ok 0
  getTokenAddressById := fun i =>
    if i = 0 then .ok "0xD" else if i = 1 then .ok "0xA" else .err
  tcrTokens := some (.ok ["0xA"])
  getTokenFromErc20 := fun _ => .ok none

theorem staleId_reused_for_cached_witness :
    (filteredIdsMap envStale [tokA] 2 = .ok [("0xA", 1)] ∧
      ("0xA", 1) ∈ [(("0xA" : String), (1 : Nat))] ∧
      List.lookup "0xA" (apiMapOf [tokA]) = some tokA ∧
      updateTokenDetails envStale [tokA] 2 = .ok [tokA] ∧
      tokA.id ≠ 1) ∧
    (tokA ∈ [tokA] ∧ tokA.id ≠ 1) :=
  ⟨⟨by decide, by decide, by decide, by decide, by decide⟩,
    staleId_reused_for_cached envStale [tokA] 2 [("0xA", 1)] "0xA" 1 tokA
      [tokA] (by decide) (by decide) (by decide) (by decide) (by decide)⟩

/-- C5: when the failed subset `F` of an id-refresh pass (with the default
parameters maxRetries = 3, initial delay `d`, exponential backoff) keeps
failing — which is automatic here, since the oracles are deterministic — the
chain schedules retries with delays `d`, `2·d`, `4·d`, each retry pass runs
over exactly the previously failed subset `F`, and after the bound is
exceeded it raises the fatal max-retries error naming the still-failing
addresses.  Scheduling is modelled by events precisely because `setTimeout`
returns without blocking the awaited pass. -/
theorem idRefresh_backoff_sequence (env : Env) (cache tokens : List TokenDetails)
    (d : Nat) (F : List TokenDetails)
    (hF : F = (updateTokenIdsPass env cache tokens).failedToUpdate)
    (hne : F ≠ []) :
    (updateTokenIdsRun env cache tokens 3 d true).2 =
      (match (updateTokenIdsPass env cache tokens).persisted with
        | some l => [IdRefreshEvent.persist l]
        | none => []) ++
      [IdRefreshEvent.scheduleRetry d F,
        IdRefreshEvent.scheduleRetry (2 * d) F,
        IdRefreshEvent.scheduleRetry (4 * d) F,
        IdRefreshEvent.fatal (F.map (fun t => t.address))] := by
  have hfail : ∀ t ∈ F, updateTokenIdOrIndicateFailure env t =
      { token := t, remove := false, failed := true } := by
    rw [hF]
    exact pass_failed_fails
  have hlen : 0 <
      (updateTokenIdsPass env cache tokens).failedToUpdate.length := by
    rw [← hF]
    exact List.length_pos.2 hne
  set c1 := (updateTokenIdsPass env cache tokens).persisted.getD cache with hc1
  have e0 : ∀ dd : Nat, updateTokenIdsRun env c1 F 0 dd true =
      (c1, [IdRefreshEvent.fatal (F.map (fun t => t.address))]) :=
    fun dd => run_fatal (by norm_num)
  have e1 : updateTokenIdsRun env c1 F 1 (4 * d) true =
      (c1, [IdRefreshEvent.scheduleRetry (4 * d) F,
        IdRefreshEvent.fatal (F.map (fun t => t.address))]) := by
    rw [run_step_allfail (by norm_num) hne hfail]
    rw [show (1 : Int) - 1 = 0 from by norm_num]
    rw [e0]
  have e2 : updateTokenIdsRun env c1 F 2 (2 * d) true =
      (c1, [IdRefreshEvent.scheduleRetry (2 * d) F,
        IdRefreshEvent.scheduleRetry (4 * d) F,
        IdRefreshEvent.fatal (F.map (fun t => t.address))]) := by
    rw [run_step_allfail (by norm_num) hne hfail]
    rw [show (2 : Int) - 1 = 1 from by norm_num]
    rw [show 2 * d * 2 = 4 * d from by ring]
    rw [e1]
  rw [run_step (by norm_num) hlen]
  rw [show (3 : Int) - 1 = 2 from by norm_num]
  rw [show d * (if true then 2 else 1) = 2 * d from by simp [Nat.mul_comm]]
  rw [← hF, ← hc1, e2]
  simp [List.append_assoc]

/-- Environment for the C5 witness: B's hasToken query always throws, A's
succeeds. -/
def envHalf : Env where
  getNumTokens := .ok 2
  hasToken := fun a => if a = "0xB" then .err else .ok true
  getTokenIdByAddress := fun _ => .ok 0
  getTokenAddressById := fun _ => .err
  tcrTokens := none
  getTokenFromErc20 := fun _ => .ok none

theorem idRefresh_backoff_sequence_witness :
    ([tokB] =
        (updateTokenIdsPass envHalf [tokA, tokB] [tokA, tokB]).failedToUpdate ∧
      ([tokB] : List TokenDetails) ≠ []) ∧
    (updateTokenIdsRun envHalf [tokA, tokB] [tokA, tokB] 3 7 true).2 =
      (match (updateTokenIdsPass envHalf [tokA, tokB] [tokA, tokB]).persisted with
        | some l => [IdRefreshEvent.persist l]
        | none => []) ++
      [IdRefreshEvent.scheduleRetry 7 [tokB],
        IdRefreshEvent.scheduleRetry (2 * 7) [tokB],
        IdRefreshEvent.scheduleRetry (4 * 7) [tokB],
        IdRefreshEvent.fatal ([tokB].map (fun t => t.address))] :=
  ⟨⟨by decide, by decide⟩,
    idRefresh_backoff_sequence envHalf [tokA, tokB] [tokA, tokB] 7 [tokB]
      (by decide) (by decide)⟩
